import Mathlib

/-!
Verification of the MiSter_Peeper repository: a shallow embedding of the
three polling monitors (`mister_peeper.cpp`, `mister_color_watch.cpp`,
`mister_peeper.c`) together with proofs about their header decoding,
pixel loaders, change-detection hashes, histogram epoch scheme, argument
parsing, startup error handling and color classification.

Machine integers are modelled as `Nat` with an explicit `% 2^w` wherever
the C code relies on unsigned wraparound.
-/

/-! ## Big-endian 16-bit field decoding

Source: `mister_peeper.cpp` line 60 and `mister_color_watch.cpp` line 66:
`static inline uint16_t be16(uint16_t x){ return (uint16_t)((x>>8)|(x<<8)); }`.
The shift `x<<8` happens after integer promotion, so only the final cast
back to `uint16_t` truncates. -/
def be16 (x : Nat) : Nat := ((x >>> 8) ||| (x <<< 8)) % 65536

/-- Little-endian in-memory load of two header bytes into a `uint16_t`,
as done by `memcpy` into the packed `FbHeader` struct on the ARM target. -/
def le_load16 (b0 b1 : Nat) : Nat := b0 + 256 * b1

/-! ## 16-bit pixel loaders

Source: `mister_peeper.cpp` lines 108-131 (`load_rgb565_LE`,
`load_rgb565_BE`, `load_bgr565_LE`, `load_bgr565_BE`) and
`mister_color_watch.cpp` lines 188-193 (`load_rgb565`, identical to the
LE variant).  Each returns the `(r,g,b)` triple of 8-bit channels; the
final `% 256` models the C cast to `uint8_t`. -/
def load_rgb565_LE (b0 b1 : Nat) : Nat × Nat × Nat :=
  let v := b0 ||| (b1 <<< 8)
  ((((v >>> 11) &&& 0x1F) * 255 / 31 % 256),
   (((v >>> 5) &&& 0x3F) * 255 / 63 % 256),
   ((v &&& 0x1F) * 255 / 31 % 256))

def load_rgb565_BE (b0 b1 : Nat) : Nat × Nat × Nat :=
  let v := (b0 <<< 8) ||| b1
  ((((v >>> 11) &&& 0x1F) * 255 / 31 % 256),
   (((v >>> 5) &&& 0x3F) * 255 / 63 % 256),
   ((v &&& 0x1F) * 255 / 31 % 256))

def load_bgr565_LE (b0 b1 : Nat) : Nat × Nat × Nat :=
  let v := b0 ||| (b1 <<< 8)
  (((v &&& 0x1F) * 255 / 31 % 256),
   (((v >>> 5) &&& 0x3F) * 255 / 63 % 256),
   (((v >>> 11) &&& 0x1F) * 255 / 31 % 256))

def load_bgr565_BE (b0 b1 : Nat) : Nat × Nat × Nat :=
  let v := (b0 <<< 8) ||| b1
  (((v &&& 0x1F) * 255 / 31 % 256),
   (((v >>> 5) &&& 0x3F) * 255 / 63 % 256),
   (((v >>> 11) &&& 0x1F) * 255 / 31 % 256))

/-- Source: `mister_color_watch.cpp` lines 182-184 (`load_rgb24`) and the
inline reads `r=p[0], g=p[1], b=p[2]` of the RGB24 path in
`mister_peeper.cpp` line 371: the raw bytes are returned unchanged. -/
def load_rgb24 (b0 b1 b2 : Nat) : Nat × Nat × Nat := (b0, b1, b2)

/-- Source: `mister_color_watch.cpp` lines 185-187 (`load_rgba32`) and
`mister_peeper.cpp` line 384: the first three bytes are returned
unchanged and the alpha byte is ignored. -/
def load_rgba32 (b0 b1 b2 b3 : Nat) : Nat × Nat × Nat :=
  let _ := b3
  (b0, b1, b2)

/-- Spec-side 5-bit channel expansion: `floor (v * 255 / 31)`. -/
def scale5 (v : Nat) : Nat := v * 255 / 31

/-- Spec-side 6-bit channel expansion: `floor (v * 255 / 63)`. -/
def scale6 (v : Nat) : Nat := v * 255 / 63

example : load_rgb565_LE 0xFF 0xFF = (255, 255, 255) := by decide
example : load_rgb565_LE 0 0 = (0, 0, 0) := by decide
example : be16 (le_load16 0x12 0x34) = 0x12 * 256 + 0x34 := by decide

set_option maxRecDepth 4096

/-- Bitwise-or of a left-shifted value with a byte-sized value is plain
addition of the disjoint bit ranges. -/
lemma shl8_lor_eq_add (a b : Nat) (hb : b < 256) : (a <<< 8) ||| b = 256 * a + b := by
  have hb' : b < 2 ^ 8 := by simpa using hb
  rw [Nat.shiftLeft_eq, Nat.mul_comm, ← Nat.mul_add_lt_is_or hb']

/-- C7: for every pair of header bytes (b0,b1) of a field stored big-endian,
`be16` applied to the little-endian in-memory load of those bytes decodes
the field as `b0*256 + b1`, for all byte values. -/
theorem be16_decodes_big_endian :
    ∀ b0 < 256, ∀ b1 < 256, be16 (le_load16 b0 b1) = b0 * 256 + b1 := by
  intro b0 hb0 b1 hb1
  have e256 : (2 : Nat) ^ 8 = 256 := by norm_num
  have h1 : le_load16 b0 b1 >>> 8 = b1 := by
    simp only [le_load16, Nat.shiftRight_eq_div_pow, e256]
    omega
  rw [be16, h1, Nat.or_comm, shl8_lor_eq_add _ _ hb1]
  simp only [le_load16]
  omega

/-- C7 witness at a concrete pair of bytes. -/
theorem be16_decodes_big_endian_witness :
    be16 (le_load16 0xAB 0xCD) = 0xAB * 256 + 0xCD :=
  be16_decodes_big_endian 0xAB (by norm_num) 0xCD (by norm_num)

/-- Masking with `0x1F` keeps the low five bits. -/
lemma mask31_eq_mod (x : Nat) : x &&& 0x1F = x % 32 := by
  have h : (0x1F : Nat) = 2 ^ 5 - 1 := by norm_num
  rw [h, Nat.and_pow_two_sub_one_eq_mod]

/-- Masking with `0x3F` keeps the low six bits. -/
lemma mask63_eq_mod (x : Nat) : x &&& 0x3F = x % 64 := by
  have h : (0x3F : Nat) = 2 ^ 6 - 1 := by norm_num
  rw [h, Nat.and_pow_two_sub_one_eq_mod]

/-- A 5-bit channel expansion never exceeds 255, so the `uint8_t` cast in
the loaders is lossless. -/
lemma scale5_cast (x : Nat) (h : x ≤ 31) : x * 255 / 31 % 256 = scale5 x := by
  have hle : x * 255 / 31 ≤ 31 * 255 / 31 :=
    Nat.div_le_div_right (Nat.mul_le_mul_right _ h)
  rw [scale5]
  omega

/-- A 6-bit channel expansion never exceeds 255, so the `uint8_t` cast in
the loaders is lossless. -/
lemma scale6_cast (x : Nat) (h : x ≤ 63) : x * 255 / 63 % 256 = scale6 x := by
  have hle : x * 255 / 63 ≤ 63 * 255 / 63 :=
    Nat.div_le_div_right (Nat.mul_le_mul_right _ h)
  rw [scale6]
  omega

/-- Shifts on a 16-bit word as divisions. -/
lemma shr_small (v : Nat) : v >>> 11 = v / 2048 ∧ v >>> 5 = v / 32 := by
  constructor <;> rw [Nat.shiftRight_eq_div_pow]

/-- C6: for every 16-bit pixel value (given as its two memory bytes), each
of the four RGB565 loader permutations expands its 5-bit channels as
`floor (v*255/31)` and its 6-bit channel as `floor (v*255/63)` of the
fields of the assembled word (little-endian word `b0 + 256*b1`, big-endian
word `256*b0 + b1`; the BGR variants swap the roles of the top and bottom
fields); channel value 0 maps to 0 and the maximal channel values 31 and
63 map to 255; and the RGB24/RGBA32 loaders return the raw bytes
unchanged. -/
theorem rgb565_loader_conversion :
    ∀ b0 < 256, ∀ b1 < 256,
      (load_rgb565_LE b0 b1 =
        (scale5 ((b0 + 256 * b1) / 2048 % 32),
         scale6 ((b0 + 256 * b1) / 32 % 64),
         scale5 ((b0 + 256 * b1) % 32))) ∧
      (load_rgb565_BE b0 b1 =
        (scale5 ((256 * b0 + b1) / 2048 % 32),
         scale6 ((256 * b0 + b1) / 32 % 64),
         scale5 ((256 * b0 + b1) % 32))) ∧
      (load_bgr565_LE b0 b1 =
        (scale5 ((b0 + 256 * b1) % 32),
         scale6 ((b0 + 256 * b1) / 32 % 64),
         scale5 ((b0 + 256 * b1) / 2048 % 32))) ∧
      (load_bgr565_BE b0 b1 =
        (scale5 ((256 * b0 + b1) % 32),
         scale6 ((256 * b0 + b1) / 32 % 64),
         scale5 ((256 * b0 + b1) / 2048 % 32))) ∧
      scale5 0 = 0 ∧ scale5 31 = 255 ∧ scale6 0 = 0 ∧ scale6 63 = 255 ∧
      (∀ r g b : Nat, load_rgb24 r g b = (r, g, b)) ∧
      (∀ r g b a : Nat, load_rgba32 r g b a = (r, g, b)) := by
  intro b0 hb0 b1 hb1
  have hLE : b0 ||| (b1 <<< 8) = b0 + 256 * b1 := by
    rw [Nat.or_comm, shl8_lor_eq_add _ _ hb0]
    omega
  have hBE : (b0 <<< 8) ||| b1 = 256 * b0 + b1 := shl8_lor_eq_add _ _ hb1
  refine ⟨?_, ?_, ?_, ?_, by norm_num [scale5], by norm_num [scale5],
         by norm_num [scale6], by norm_num [scale6],
         fun r g b => rfl, fun r g b a => rfl⟩ <;>
    simp only [load_rgb565_LE, load_rgb565_BE, load_bgr565_LE, load_bgr565_BE,
      hLE, hBE, (shr_small _).1, (shr_small _).2, mask31_eq_mod, mask63_eq_mod,
      Prod.mk.injEq] <;>
    exact ⟨scale5_cast _ (by omega), scale6_cast _ (by omega), scale5_cast _ (by omega)⟩

/-- C6 witness: the conversion facts instantiated at the concrete byte
pair (0xFF, 0x07), whose little-endian word 0x07FF has a maximal green
field. -/
theorem rgb565_loader_conversion_witness :
    load_rgb565_LE 0xFF 0x07 =
      (scale5 ((0xFF + 256 * 0x07) / 2048 % 32),
       scale6 ((0xFF + 256 * 0x07) / 32 % 64),
       scale5 ((0xFF + 256 * 0x07) % 32)) ∧ scale6 63 = 255 :=
  ⟨(rgb565_loader_conversion 0xFF (by norm_num) 0x07 (by norm_num)).1,
   (rgb565_loader_conversion 0xFF (by norm_num) 0x07 (by norm_num)).2.2.2.2.2.2.2.1⟩

/-! ## Nearest color name

Source: `mister_peeper.cpp` lines 86-105 (`kPalette`, `nearest_color_name`)
and `mister_peeper.c` lines 14-51 (`color_table`, `nearest_color_name`).
Both scan their palette linearly, keeping the first entry of strictly
smallest squared RGB distance; distances are computed in `int`
(resp. `long`, also 32-bit on the ARM target), starting from
`INT_MAX`/`LONG_MAX` = 2147483647. -/
def kPalette : List (String × Nat × Nat × Nat) :=
  [("Black", 0, 0, 0), ("White", 255, 255, 255), ("Red", 255, 0, 0),
   ("Lime", 0, 255, 0), ("Blue", 0, 0, 255), ("Yellow", 255, 255, 0),
   ("Cyan", 0, 255, 255), ("Magenta", 255, 0, 255),
   ("Silver", 192, 192, 192), ("Gray", 128, 128, 128),
   ("Maroon", 128, 0, 0), ("Olive", 128, 128, 0), ("Green", 0, 128, 0),
   ("Purple", 128, 0, 128), ("Teal", 0, 128, 128), ("Navy", 0, 0, 128),
   ("Orange", 255, 165, 0), ("Pink", 255, 192, 203),
   ("Brown", 165, 42, 42), ("Gold", 255, 215, 0)]

def color_table : List (String × Nat × Nat × Nat) :=
  [("Black", 0, 0, 0), ("White", 255, 255, 255), ("Red", 255, 0, 0),
   ("Green", 0, 255, 0), ("Blue", 0, 0, 255), ("Yellow", 255, 255, 0),
   ("Cyan", 0, 255, 255), ("Magenta", 255, 0, 255),
   ("Gray", 128, 128, 128), ("Orange", 255, 165, 0),
   ("Purple", 128, 0, 128), ("Pink", 255, 192, 203)]

/-- Squared RGB distance of a pixel to a palette entry, as the C code's
`dr*dr + dg*dg + db*db` over signed differences. -/
def dist2 (r g b : Nat) (c : String × Nat × Nat × Nat) : Int :=
  let dr : Int := (r : Int) - (c.2.1 : Int)
  let dg : Int := (g : Int) - (c.2.2.1 : Int)
  let db : Int := (b : Int) - (c.2.2.2 : Int)
  dr * dr + dg * dg + db * db

/-- Linear scan keeping the first strictly-smaller distance, mirroring the
`for` loop of both `nearest_color_name` implementations. -/
def nearestScan (r g b : Nat) : List (String × Nat × Nat × Nat) → String × Int → String × Int
  | [], acc => acc
  | c :: rest, acc =>
      if dist2 r g b c < acc.2 then nearestScan r g b rest (c.1, dist2 r g b c)
      else nearestScan r g b rest acc

/-- `nearest_color_name` of `mister_peeper.cpp` (initial best index 0,
initial best distance `INT_MAX`). -/
def nearest_color_name_cpp (r g b : Nat) : String :=
  (nearestScan r g b kPalette ("Black", 2147483647)).1

/-- `nearest_color_name` of `mister_peeper.c` (initial best index 0,
initial best distance `LONG_MAX`, 32-bit `long`). -/
def nearest_color_name_c (r g b : Nat) : String :=
  (nearestScan r g b color_table ("Black", 2147483647)).1

/-- C8: the nearest-color-name classifier maps (255,0,0) to "Red",
(255,255,255) to "White" and (128,128,128) to "Gray", in each variant's
palette. -/
theorem nearest_color_name_canonical :
    nearest_color_name_cpp 255 0 0 = "Red" ∧
    nearest_color_name_cpp 255 255 255 = "White" ∧
    nearest_color_name_cpp 128 128 128 = "Gray" ∧
    nearest_color_name_c 255 0 0 = "Red" ∧
    nearest_color_name_c 255 255 255 = "White" ∧
    nearest_color_name_c 128 128 128 = "Gray" := by
  refine ⟨?_, ?_, ?_, ?_, ?_, ?_⟩ <;> decide

/-! ## Startup and error handling

Outcomes model `main`'s early returns: `some (msg, code)` means the
program prints `msg` (via `perror`/`fprintf(stderr,...)`) and returns
`code`; `none` means startup succeeds and the main loop is entered. -/

/-- Source: `mister_peeper.cpp` lines 234-245. -/
def peeperCppStart (openOk mmapOk : Bool) (ty : Nat) : Option (String × Nat) :=
  if openOk = false then some ("open(/dev/mem)", 1)
  else if mmapOk = false then some ("mmap", 1)
  else if ty ≠ 1 then some ("error=header_not_found", 3)
  else none

/-- Source: `mister_color_watch.cpp` lines 104-117. -/
def colorWatchStart (openOk mmapOk : Bool) (ty : Nat) : Option (String × Nat) :=
  if openOk = false then some ("open(/dev/mem)", 1)
  else if mmapOk = false then some ("mmap", 1)
  else if ty ≠ 1 then some ("Scaler header not found", 3)
  else none

/-- Source: `mister_peeper.c` lines 69-81: only `open`/`mmap` failures are
fatal; the header is not checked before the loop. -/
def peeperCStart (openOk mmapOk : Bool) : Option (String × Nat) :=
  if openOk = false then some ("open /dev/mem", 1)
  else if mmapOk = false then some ("mmap", 1)
  else none

/-- What one `while(1)` iteration of `mister_peeper.c` does with the
header check at lines 100-103: a buffer not starting with bytes (1,1)
makes the iteration `usleep(2000); continue;` — it retries, it never
exits. -/
inductive CIterAction where
  | retry
  | process
deriving DecidableEq

/-- Source: `mister_peeper.c` lines 100-103:
`if (!(buffer[0] == 1 && buffer[1] == 1)) { usleep(2000); continue; }`. -/
def peeperC_iter (b0 b1 : Nat) : CIterAction :=
  if b0 = 1 ∧ b1 = 1 then CIterAction.process else CIterAction.retry

/-- C2 counterexample: with `open` and `mmap` both succeeding and a header
whose type tag is 0 (not 0x01), `mister_peeper.c` does not terminate: its
startup reaches the loop and the loop iteration merely retries. -/
theorem header_tag_not_fatal_in_peeper_c :
    peeperCStart true true = none ∧ peeperC_iter 0 1 = CIterAction.retry :=
  ⟨rfl, rfl⟩

/-- C2 amended: open/mmap failures print and exit nonzero in all three
programs; an unrecognized header tag is fatal (exit code 3) in
`mister_peeper.cpp` and `mister_color_watch.cpp`, while `mister_peeper.c`
sleeps and retries the poll instead of terminating. -/
theorem startup_failures_fatal :
    (∀ m ty, peeperCppStart false m ty = some ("open(/dev/mem)", 1)) ∧
    (∀ ty, peeperCppStart true false ty = some ("mmap", 1)) ∧
    (∀ ty, ty ≠ 1 → peeperCppStart true true ty = some ("error=header_not_found", 3)) ∧
    (∀ m ty, colorWatchStart false m ty = some ("open(/dev/mem)", 1)) ∧
    (∀ ty, colorWatchStart true false ty = some ("mmap", 1)) ∧
    (∀ ty, ty ≠ 1 → colorWatchStart true true ty = some ("Scaler header not found", 3)) ∧
    (∀ m, peeperCStart false m = some ("open /dev/mem", 1)) ∧
    peeperCStart true false = some ("mmap", 1) ∧
    (∀ b0 b1, ¬(b0 = 1 ∧ b1 = 1) → peeperC_iter b0 b1 = CIterAction.retry) := by
  refine ⟨fun m ty => rfl, fun ty => rfl, fun ty h => ?_,
         fun m ty => rfl, fun ty => rfl, fun ty h => ?_,
         fun m => rfl, rfl, fun b0 b1 h => ?_⟩ <;>
    simp [peeperCppStart, colorWatchStart, peeperC_iter, h]

/-- C2 witness: the amended behavior at concrete inputs (header tag 7). -/
theorem startup_failures_fatal_witness :
    peeperCppStart true true 7 = some ("error=header_not_found", 3) ∧
    colorWatchStart true true 7 = some ("Scaler header not found", 3) ∧
    peeperC_iter 7 1 = CIterAction.retry :=
  ⟨startup_failures_fatal.2.2.1 7 (by norm_num),
   startup_failures_fatal.2.2.2.2.2.1 7 (by norm_num),
   startup_failures_fatal.2.2.2.2.2.2.2.2 7 1 (by norm_num)⟩

/-! ## Pixel-format dispatch and degraded output -/

/-- Result of the per-frame format dispatch in `mister_color_watch.cpp`
lines 213-243: a supported format is sampled at the given stride, an
unsupported one prints "Unsupported pixel format" to stderr and executes
`break`, leaving the polling loop for good. -/
inductive WatchDispatch where
  | sampled (bytesPerPixel : Nat)
  | unsupportedStop
deriving DecidableEq

/-- Source: `mister_color_watch.cpp` lines 213, 222, 231, 240-242
(`if(fmt==RGB24) ... else if(fmt==RGBA32) ... else if(fmt==RGB16) ...
else { fprintf(stderr,"Unsupported pixel format..."); break; }`). -/
def colorWatchDispatch (fmt : Nat) : WatchDispatch :=
  if fmt = 1 then WatchDispatch.sampled 3
  else if fmt = 2 then WatchDispatch.sampled 4
  else if fmt = 0 then WatchDispatch.sampled 2
  else WatchDispatch.unsupportedStop

/-- Source: `mister_peeper.cpp` lines 366, 379, 392: `if(fmt==RGB24) ...
else if(fmt==RGBA32) ... else { // RGB16 family ... }` — every format
other than RGB24/RGBA32 falls into the 2-byte RGB16 sampling path and the
loop continues. -/
def peeperCppBytesPerPixel (fmt : Nat) : Nat :=
  if fmt = 1 then 3 else if fmt = 2 then 4 else 2

/-- Source: `mister_color_watch.cpp` lines 246-249:
`double r_avg = n ? (double)rs/n : 0.0;` etc., then truncation to
`unsigned`.  (C divides in `double`; only the zero-sample branch, which
is exact, is used by the claims.) -/
def colorWatchAvg (rs gs bs n : Nat) : Nat × Nat × Nat :=
  if n = 0 then (0, 0, 0) else (rs / n, gs / n, bs / n)

/-- Source: `mister_peeper.c` lines 176-181: the dominant color stays
(0,0,0) unless `sample_count > 0`. -/
def peeperC_dom (r_sum g_sum b_sum sample_count : Nat) : Nat × Nat × Nat :=
  if 0 < sample_count then
    (r_sum / sample_count, g_sum / sample_count, b_sum / sample_count)
  else (0, 0, 0)

/-- Source: `mister_peeper.cpp` lines 416-418: expansion of the winning
5-6-5 histogram bin to 8-bit channels; with zero samples `mode_key`
remains 0. -/
def modeExpand (mode_key : Nat) : Nat × Nat × Nat :=
  (((mode_key >>> 11) &&& 0x1F) * 255 / 31 % 256,
   ((mode_key >>> 5) &&& 0x3F) * 255 / 63 % 256,
   (mode_key &&& 0x1F) * 255 / 31 % 256)

/-- C3 counterexample: a frame whose header carries the unknown pixel
format 3 does not make `mister_color_watch.cpp` continue with zeroed
output — the dispatch prints an error and stops the loop. -/
theorem unknown_format_stops_color_watch :
    colorWatchDispatch 3 = WatchDispatch.unsupportedStop := rfl

/-- C3 amended: every sampling pass that collects zero samples degrades to
zeroed color output in all three programs, and an unknown pixel format
degrades silently (continues sampling) in `mister_peeper.cpp` (it falls
into the RGB16 path) and in `mister_peeper.c` (the format byte is never
consulted); but in `mister_color_watch.cpp` an unknown format prints
"Unsupported pixel format" to stderr and leaves the loop. -/
theorem degraded_output_on_zero_samples :
    (∀ rs gs bs, colorWatchAvg rs gs bs 0 = (0, 0, 0)) ∧
    (∀ rs gs bs, peeperC_dom rs gs bs 0 = (0, 0, 0)) ∧
    modeExpand 0 = (0, 0, 0) ∧
    (∀ fmt, fmt ≠ 1 → fmt ≠ 2 → peeperCppBytesPerPixel fmt = 2) ∧
    (∀ fmt, fmt ≠ 0 → fmt ≠ 1 → fmt ≠ 2 →
      colorWatchDispatch fmt = WatchDispatch.unsupportedStop) := by
  refine ⟨fun rs gs bs => rfl, fun rs gs bs => rfl, rfl,
         fun fmt h1 h2 => ?_, fun fmt h0 h1 h2 => ?_⟩ <;>
    simp [peeperCppBytesPerPixel, colorWatchDispatch, h1, h2, *]

/-- C3 witness: the amended behavior at concrete inputs (format 7, and a
zero-sample pass with nonzero accumulated sums). -/
theorem degraded_output_on_zero_samples_witness :
    colorWatchAvg 500 600 700 0 = (0, 0, 0) ∧
    peeperC_dom 500 600 700 0 = (0, 0, 0) ∧
    peeperCppBytesPerPixel 7 = 2 ∧
    colorWatchDispatch 7 = WatchDispatch.unsupportedStop :=
  ⟨degraded_output_on_zero_samples.1 500 600 700,
   degraded_output_on_zero_samples.2.1 500 600 700,
   degraded_output_on_zero_samples.2.2.2.1 7 (by norm_num) (by norm_num),
   degraded_output_on_zero_samples.2.2.2.2 7 (by norm_num) (by norm_num) (by norm_num)⟩

/-! ## Change detection and the unchanged timer -/

/-- Hash-only change detection state of `mister_peeper.cpp`
(lines 276-277, 410-413). -/
structure CppChangeState where
  first : Bool
  last_hash : Nat
  last_change_ns : Nat
deriving DecidableEq

/-- Source: `mister_peeper.cpp` lines 410-413:
`if(first){ last_hash=hsh; last_change_ns=t_ns; first=false; }
else if(hsh!=last_hash){ last_change_ns=t_ns; last_hash=hsh; }`. -/
def peeperCppChangeStep (s : CppChangeState) (t_ns hsh : Nat) : CppChangeState :=
  if s.first then ⟨false, hsh, t_ns⟩
  else if hsh ≠ s.last_hash then ⟨false, hsh, t_ns⟩
  else s

/-- Numerator of the printed `unchanged=...` value of `mister_peeper.cpp`
line 421: `(t_ns - last_change_ns)`, printed after dividing by 1e9; the
printed seconds are zero exactly when this is zero. -/
def peeperCppUnchangedNs (s : CppChangeState) (t_ns : Nat) : Nat :=
  t_ns - s.last_change_ns

/-- Source: `mister_peeper.c` lines 167-172: the static counter resets to
0 on a hash change and the new hash is latched; the printed
`StaticTime` is `static_counter * elapsed`, zero exactly when the counter
is zero.  Returns (new last_hash, new static_counter). -/
def peeperCStaticStep (last_hash static_counter hash : Nat) : Nat × Nat :=
  if hash = last_hash then (last_hash, static_counter + 1) else (hash, 0)

/-- Change detection state of `mister_color_watch.cpp`: `last_hash` and
`first` (lines 174-175) and the `static` local `last_change_mark`
(line 278), initialized to the first iteration's timestamp. -/
structure WatchChangeState where
  first : Bool
  last_hash : Nat
  last_change_mark : Nat
deriving DecidableEq

/-- Source: `mister_color_watch.cpp` lines 268-279: the first `if` latches
`last_hash = hsh` (and records nothing else), the second
`if(hsh != last_hash){ last_change_mark = t_ns; }` compares against the
already-latched hash. -/
def watchChangeStep (s : WatchChangeState) (t_ns hsh : Nat) : WatchChangeState :=
  let s1 := if s.first ∨ hsh ≠ s.last_hash then
              { s with first := false, last_hash := hsh } else s
  if hsh ≠ s1.last_hash then { s1 with last_change_mark := t_ns } else s1

/-- Numerator of the printed `unchanged(s)` value of
`mister_color_watch.cpp` line 282: `(t_ns - last_change_mark)`. -/
def watchUnchangedNs (s : WatchChangeState) (t_ns : Nat) : Nat :=
  t_ns - s.last_change_mark

/-- C1: in `mister_color_watch.cpp` a poll iteration after the first whose
sample hash (42) differs from the stored hash (100) does NOT reset the
last-change mark (it stays at 1000000000 ns), and the printed unchanged
time is 5 seconds, not zero: the second comparison happens after
`last_hash` has already been overwritten, so it never fires. -/
theorem watch_timer_not_reset_on_change :
    watchChangeStep ⟨false, 100, 1000000000⟩ 6000000000 42 =
      ⟨false, 42, 1000000000⟩ ∧
    watchUnchangedNs (watchChangeStep ⟨false, 100, 1000000000⟩ 6000000000 42)
      6000000000 = 5000000000 := by
  constructor <;> rfl

/-- The `last_change_mark` of `mister_color_watch.cpp` is never updated by
any iteration, whatever the state and incoming hash. -/
theorem watch_mark_never_updated (s : WatchChangeState) (t_ns hsh : Nat) :
    (watchChangeStep s t_ns hsh).last_change_mark = s.last_change_mark := by
  unfold watchChangeStep
  by_cases h : s.first ∨ hsh ≠ s.last_hash
  · simp [h]
  · push_neg at h
    simp [h.1, h.2]

/-- In `mister_peeper.cpp`, a non-first iteration whose hash differs from
the stored one resets the timestamp to the current instant, so the printed
unchanged time of that iteration is zero; `mister_peeper.c` likewise
resets its static counter to zero. -/
theorem peeper_timer_resets_on_change (s : CppChangeState) (t_ns hsh : Nat)
    (hf : s.first = false) (hne : hsh ≠ s.last_hash)
    (lh c h : Nat) (hne' : h ≠ lh) :
    peeperCppUnchangedNs (peeperCppChangeStep s t_ns hsh) t_ns = 0 ∧
    (peeperCStaticStep lh c h).2 = 0 := by
  constructor
  · simp [peeperCppChangeStep, peeperCppUnchangedNs, hf, hne]
  · simp [peeperCStaticStep, hne']

/-- Concrete instance of `peeper_timer_resets_on_change`. -/
theorem peeper_timer_resets_on_change_witness :
    peeperCppUnchangedNs
      (peeperCppChangeStep ⟨false, 100, 1000000000⟩ 6000000000 42)
      6000000000 = 0 ∧
    (peeperCStaticStep 100 7 42).2 = 0 :=
  peeper_timer_resets_on_change ⟨false, 100, 1000000000⟩ 6000000000 42
    rfl (by norm_num) 100 7 42 (by norm_num)

/-! ## Change-detection hashes

The xorshift mixer of `mister_peeper.cpp` lines 76-79 and
`mister_color_watch.cpp` lines 38-42, and the multiplicative hash of
`mister_peeper.c` line 159.  All arithmetic is `uint32_t`: left shifts
wrap modulo 2^32. -/

/-- One `h ^= h << k` step on a `uint32_t`. -/
def xsL (k x : Nat) : Nat := x ^^^ ((x <<< k) % 2 ^ 32)

/-- One `h ^= h >> k` step on a `uint32_t`. -/
def xsR (k x : Nat) : Nat := x ^^^ (x >>> k)

/-- The value `((uint32_t)r<<16)^((uint32_t)g<<8)^(uint32_t)b` xor-ed into
the hash state by `hash_rgb`. -/
def pix_enc (r g b : Nat) : Nat := ((r <<< 16) ^^^ (g <<< 8)) ^^^ b

/-- Source: `hash_rgb` (`mister_peeper.cpp` lines 76-79,
`mister_color_watch.cpp` lines 38-42):
`h^=((uint32_t)r<<16)^((uint32_t)g<<8)^(uint32_t)b; h^=h<<13; h^=h>>17;
h^=h<<5; return h;`. -/
def hash_rgb (h r g b : Nat) : Nat := xsL 5 (xsR 17 (xsL 13 (h ^^^ pix_enc r g b)))

/-- Folding `hash_rgb` over the sampled pixels from the seed 2166136261
(`uint32_t hsh=2166136261u`, `mister_peeper.cpp` line 351,
`mister_color_watch.cpp` line 211). -/
def hashFold (l : List (Nat × Nat × Nat)) : Nat :=
  l.foldl (fun h p => hash_rgb h p.1 p.2.1 p.2.2) 2166136261

/-- Source: `mister_peeper.c` line 159:
`hash = (hash * 131) + r + (g << 8) + (b << 16);` on `uint32_t`. -/
def hashC_step (h r g b : Nat) : Nat :=
  (h * 131 + r + (g <<< 8) + (b <<< 16)) % 2 ^ 32

/-- Folding the `mister_peeper.c` hash over the sampled pixels from the
seed 0 (`uint32_t hash = 0`, line 146). -/
def hashFoldC (l : List (Nat × Nat × Nat)) : Nat :=
  l.foldl (fun h p => hashC_step h p.1 p.2.1 p.2.2) 0

/-- A pixel as sampled by the C code: three `uint8_t` channels. -/
def validPix (p : Nat × Nat × Nat) : Prop :=
  p.1 < 256 ∧ p.2.1 < 256 ∧ p.2.2 < 256

lemma bool_xor_cancel_right : ∀ a b c : Bool, xor a c = xor b c → a = b := by decide

lemma xsL_lt (k : Nat) {x : Nat} (hx : x < 2 ^ 32) : xsL k x < 2 ^ 32 :=
  Nat.xor_lt_two_pow hx (Nat.mod_lt _ (by norm_num))

lemma xsR_lt (k : Nat) {x : Nat} (hx : x < 2 ^ 32) : xsR k x < 2 ^ 32 := by
  refine Nat.xor_lt_two_pow hx (lt_of_le_of_lt ?_ hx)
  rw [Nat.shiftRight_eq_div_pow]
  exact Nat.div_le_self _ _

/-- `h ^= h << k` is injective on 32-bit states for `k > 0`: bits are
recovered from the low end upward. -/
lemma xsL_inj (k : Nat) (hk : 0 < k) {x y : Nat} (hx : x < 2 ^ 32) (hy : y < 2 ^ 32)
    (h : xsL k x = xsL k y) : x = y := by
  apply Nat.eq_of_testBit_eq
  intro i
  induction i using Nat.strong_induction_on with
  | _ i ih =>
    rcases Nat.lt_or_ge i 32 with h32 | h32
    · have hbit := congrArg (fun z => z.testBit i) h
      simp only [xsL, Nat.testBit_xor, Nat.testBit_mod_two_pow, Nat.testBit_shiftLeft] at hbit
      rcases Nat.lt_or_ge i k with hik | hik
      · simpa [h32, Nat.not_le.mpr hik] using hbit
      · have heq := ih (i - k) (by omega)
        simp only [h32, hik, heq, decide_True, Bool.true_and, ge_iff_le] at hbit
        exact bool_xor_cancel_right _ _ _ hbit
    · have b32 : (2 : Nat) ^ 32 ≤ 2 ^ i := Nat.pow_le_pow_right (by norm_num) h32
      rw [Nat.testBit_lt_two_pow (lt_of_lt_of_le hx b32),
          Nat.testBit_lt_two_pow (lt_of_lt_of_le hy b32)]

/-- `h ^= h >> k` is injective on 32-bit states for `k > 0`: bits are
recovered from the high end downward. -/
lemma xsR_inj (k : Nat) (hk : 0 < k) {x y : Nat} (hx : x < 2 ^ 32) (hy : y < 2 ^ 32)
    (h : xsR k x = xsR k y) : x = y := by
  have key : ∀ d i, 32 ≤ i + d → x.testBit i = y.testBit i := by
    intro d
    induction d with
    | zero =>
        intro i hi
        have b32 : (2 : Nat) ^ 32 ≤ 2 ^ i := Nat.pow_le_pow_right (by norm_num) (by omega)
        rw [Nat.testBit_lt_two_pow (lt_of_lt_of_le hx b32),
            Nat.testBit_lt_two_pow (lt_of_lt_of_le hy b32)]
    | succ d ih =>
        intro i hi
        rcases Nat.lt_or_ge i 32 with h32 | h32
        · have hbit := congrArg (fun z => z.testBit i) h
          simp only [xsR, Nat.testBit_xor, Nat.testBit_shiftRight] at hbit
          have heq : x.testBit (k + i) = y.testBit (k + i) := ih (k + i) (by omega)
          rw [heq] at hbit
          exact bool_xor_cancel_right _ _ _ hbit
        · have b32 : (2 : Nat) ^ 32 ≤ 2 ^ i := Nat.pow_le_pow_right (by norm_num) h32
          rw [Nat.testBit_lt_two_pow (lt_of_lt_of_le hx b32),
              Nat.testBit_lt_two_pow (lt_of_lt_of_le hy b32)]
  exact Nat.eq_of_testBit_eq fun i => key 32 i (by omega)

lemma xor_left_cancel {c a b : Nat} (h : c ^^^ a = c ^^^ b) : a = b := by
  have h2 := congrArg (fun z => c ^^^ z) h
  simpa [← Nat.xor_assoc] using h2

lemma xor_mod_two_pow (x y n : Nat) : (x ^^^ y) % 2 ^ n = (x % 2 ^ n) ^^^ (y % 2 ^ n) := by
  apply Nat.eq_of_testBit_eq
  intro i
  by_cases h : i < n <;>
    simp [Nat.testBit_mod_two_pow, Nat.testBit_xor, h]

lemma xor_shiftRight (x y k : Nat) : (x ^^^ y) >>> k = (x >>> k) ^^^ (y >>> k) := by
  apply Nat.eq_of_testBit_eq
  intro i
  simp [Nat.testBit_shiftRight, Nat.testBit_xor]

/-- Extraction of the blue byte from `pix_enc`. -/
lemma pix_enc_blue {r g b : Nat} (hb : b < 256) : pix_enc r g b % 256 = b := by
  rw [show (256 : Nat) = 2 ^ 8 from by norm_num]
  have h1 : (r <<< 16) % 2 ^ 8 = 0 := by
    rw [Nat.shiftLeft_eq]
    have : (2 : Nat) ^ 16 = 2 ^ 8 * 2 ^ 8 := by norm_num
    rw [this, ← Nat.mul_assoc, Nat.mul_mod_left]
  have h2 : (g <<< 8) % 2 ^ 8 = 0 := by
    rw [Nat.shiftLeft_eq, Nat.mul_mod_left]
  rw [pix_enc, xor_mod_two_pow, xor_mod_two_pow, h1, h2]
  simp only [Nat.zero_xor]
  rw [show (2 : Nat) ^ 8 = 256 from by norm_num]
  omega

/-- Extraction of the green byte from `pix_enc`. -/
lemma pix_enc_green {r g b : Nat} (hg : g < 256) (hb : b < 256) :
    (pix_enc r g b >>> 8) % 256 = g := by
  rw [show (256 : Nat) = 2 ^ 8 from by norm_num]
  have h1 : (r <<< 16) >>> 8 = r <<< 8 := by
    simp only [Nat.shiftLeft_eq, Nat.shiftRight_eq_div_pow]
    omega
  have h2 : (g <<< 8) >>> 8 = g := by
    simp only [Nat.shiftLeft_eq, Nat.shiftRight_eq_div_pow]
    omega
  have h3 : b >>> 8 = 0 := by
    rw [Nat.shiftRight_eq_div_pow]
    omega
  have h4 : (r <<< 8) % 2 ^ 8 = 0 := by
    rw [Nat.shiftLeft_eq, Nat.mul_mod_left]
  rw [pix_enc, xor_shiftRight, xor_shiftRight, h1, h2, h3, Nat.xor_zero,
      xor_mod_two_pow, h4]
  simp only [Nat.zero_xor]
  rw [show (2 : Nat) ^ 8 = 256 from by norm_num]
  omega

/-- Extraction of the red byte from `pix_enc`. -/
lemma pix_enc_red {r g b : Nat} (hg : g < 256) (hb : b < 256) :
    pix_enc r g b >>> 16 = r := by
  have h1 : (r <<< 16) >>> 16 = r := by
    simp only [Nat.shiftLeft_eq, Nat.shiftRight_eq_div_pow]
    omega
  have h2 : (g <<< 8) >>> 16 = 0 := by
    simp only [Nat.shiftLeft_eq, Nat.shiftRight_eq_div_pow]
    omega
  have h3 : b >>> 16 = 0 := by
    rw [Nat.shiftRight_eq_div_pow]
    omega
  rw [pix_enc, xor_shiftRight, xor_shiftRight, h1, h2, h3]
  simp

/-- Two distinct byte triples have distinct encodings. -/
lemma pix_enc_inj {p q : Nat × Nat × Nat} (hp : validPix p) (hq : validPix q)
    (hne : p ≠ q) : pix_enc p.1 p.2.1 p.2.2 ≠ pix_enc q.1 q.2.1 q.2.2 := by
  intro h
  apply hne
  obtain ⟨hp1, hp2, hp3⟩ := hp
  obtain ⟨hq1, hq2, hq3⟩ := hq
  have hb : p.2.2 = q.2.2 := by
    have hm := congrArg (fun z => z % 256) h
    simpa [pix_enc_blue hp3, pix_enc_blue hq3] using hm
  have hg : p.2.1 = q.2.1 := by
    have hm := congrArg (fun z => (z >>> 8) % 256) h
    simpa [pix_enc_green hp2 hp3, pix_enc_green hq2 hq3] using hm
  have hr : p.1 = q.1 := by
    have hm := congrArg (fun z => z >>> 16) h
    simpa [pix_enc_red hp2 hp3, pix_enc_red hq2 hq3] using hm
  exact Prod.ext hr (Prod.ext hg hb)

lemma pix_enc_lt {r g b : Nat} (hr : r < 256) (hg : g < 256) (hb : b < 256) :
    pix_enc r g b < 2 ^ 32 := by
  have h1 : r <<< 16 < 2 ^ 32 := by
    rw [Nat.shiftLeft_eq]
    have : r * 2 ^ 16 ≤ 255 * 2 ^ 16 := Nat.mul_le_mul_right _ (by omega)
    omega
  have h2 : g <<< 8 < 2 ^ 32 := by
    rw [Nat.shiftLeft_eq]
    have : g * 2 ^ 8 ≤ 255 * 2 ^ 8 := Nat.mul_le_mul_right _ (by omega)
    omega
  exact Nat.xor_lt_two_pow (Nat.xor_lt_two_pow h1 h2) (by omega)

lemma hash_rgb_lt {h : Nat} (hh : h < 2 ^ 32) {r g b : Nat}
    (hr : r < 256) (hg : g < 256) (hb : b < 256) : hash_rgb h r g b < 2 ^ 32 :=
  xsL_lt 5 (xsR_lt 17 (xsL_lt 13 (Nat.xor_lt_two_pow hh (pix_enc_lt hr hg hb))))

/-- `hash_rgb` is injective in its state argument on 32-bit states, for a
fixed valid pixel. -/
lemma hash_rgb_state_inj {h1 h2 : Nat} (lt1 : h1 < 2 ^ 32) (lt2 : h2 < 2 ^ 32)
    {r g b : Nat} (hr : r < 256) (hg : g < 256) (hb : b < 256)
    (heq : hash_rgb h1 r g b = hash_rgb h2 r g b) : h1 = h2 := by
  have he : pix_enc r g b < 2 ^ 32 := pix_enc_lt hr hg hb
  have b1 : h1 ^^^ pix_enc r g b < 2 ^ 32 := Nat.xor_lt_two_pow lt1 he
  have b2 : h2 ^^^ pix_enc r g b < 2 ^ 32 := Nat.xor_lt_two_pow lt2 he
  have s13 := xsL_inj 5 (by norm_num)
    (xsR_lt 17 (xsL_lt 13 b1)) (xsR_lt 17 (xsL_lt 13 b2)) heq
  have s17 := xsR_inj 17 (by norm_num) (xsL_lt 13 b1) (xsL_lt 13 b2) s13
  have s0 := xsL_inj 13 (by norm_num) b1 b2 s17
  have := congrArg (fun z => z ^^^ pix_enc r g b) s0
  simpa [Nat.xor_assoc] using this

lemma hashFold_go_lt (l : List (Nat × Nat × Nat)) :
    ∀ h : Nat, h < 2 ^ 32 → (∀ p ∈ l, validPix p) →
      List.foldl (fun h p => hash_rgb h p.1 p.2.1 p.2.2) h l < 2 ^ 32 := by
  induction l with
  | nil => intro h hh _; simpa using hh
  | cons p rest ih =>
      intro h hh hv
      have hvp := hv p (by simp)
      simp only [List.foldl_cons]
      exact ih _ (hash_rgb_lt hh hvp.1 hvp.2.1 hvp.2.2) fun q hq => hv q (by simp [hq])

lemma hashFold_go_inj (l : List (Nat × Nat × Nat)) :
    ∀ h1 h2 : Nat, h1 < 2 ^ 32 → h2 < 2 ^ 32 → (∀ p ∈ l, validPix p) →
      List.foldl (fun h p => hash_rgb h p.1 p.2.1 p.2.2) h1 l =
        List.foldl (fun h p => hash_rgb h p.1 p.2.1 p.2.2) h2 l → h1 = h2 := by
  induction l with
  | nil => intro h1 h2 _ _ _ h; simpa using h
  | cons p rest ih =>
      intro h1 h2 lt1 lt2 hv heq
      simp only [List.foldl_cons] at heq
      have hvp := hv p (by simp)
      have hs := ih _ _ (hash_rgb_lt lt1 hvp.1 hvp.2.1 hvp.2.2)
        (hash_rgb_lt lt2 hvp.1 hvp.2.1 hvp.2.2)
        (fun q hq => hv q (by simp [hq])) heq
      exact hash_rgb_state_inj lt1 lt2 hvp.1 hvp.2.1 hvp.2.2 hs

/-- Two valid pixels that differ produce different `hash_rgb` outputs from
the same 32-bit state. -/
lemma hash_rgb_point_inj {H : Nat} (hH : H < 2 ^ 32) {p q : Nat × Nat × Nat}
    (hp : validPix p) (hq : validPix q) (hne : p ≠ q) :
    hash_rgb H p.1 p.2.1 p.2.2 ≠ hash_rgb H q.1 q.2.1 q.2.2 := by
  intro heq
  have ba : H ^^^ pix_enc p.1 p.2.1 p.2.2 < 2 ^ 32 :=
    Nat.xor_lt_two_pow hH (pix_enc_lt hp.1 hp.2.1 hp.2.2)
  have bb : H ^^^ pix_enc q.1 q.2.1 q.2.2 < 2 ^ 32 :=
    Nat.xor_lt_two_pow hH (pix_enc_lt hq.1 hq.2.1 hq.2.2)
  unfold hash_rgb at heq
  have s13 := xsL_inj 5 (by norm_num)
    (xsR_lt 17 (xsL_lt 13 ba)) (xsR_lt 17 (xsL_lt 13 bb)) heq
  have s17 := xsR_inj 17 (by norm_num) (xsL_lt 13 ba) (xsL_lt 13 bb) s13
  have s0 := xsL_inj 13 (by norm_num) ba bb s17
  exact pix_enc_inj hp hq hne (xor_left_cancel s0)

lemma hashC_step_lt (h r g b : Nat) : hashC_step h r g b < 2 ^ 32 :=
  Nat.mod_lt _ (by norm_num)

lemma hashC_state_inj {h1 h2 : Nat} (lt1 : h1 < 2 ^ 32) (lt2 : h2 < 2 ^ 32) (r g b : Nat)
    (heq : hashC_step h1 r g b = hashC_step h2 r g b) : h1 = h2 := by
  have hme : h1 * 131 + r + (g <<< 8) + (b <<< 16) ≡
      h2 * 131 + r + (g <<< 8) + (b <<< 16) [MOD 2 ^ 32] := heq
  have m1 := Nat.ModEq.add_right_cancel' _ hme
  have m2 := Nat.ModEq.add_right_cancel' _ m1
  have m3 := Nat.ModEq.add_right_cancel' _ m2
  have m4 := Nat.ModEq.cancel_right_of_coprime (by norm_num) m3
  have hmm : h1 % 2 ^ 32 = h2 % 2 ^ 32 := m4
  rwa [Nat.mod_eq_of_lt lt1, Nat.mod_eq_of_lt lt2] at hmm

lemma hashFoldC_go_lt (l : List (Nat × Nat × Nat)) :
    ∀ h : Nat, h < 2 ^ 32 →
      List.foldl (fun h p => hashC_step h p.1 p.2.1 p.2.2) h l < 2 ^ 32 := by
  induction l with
  | nil => intro h hh; simpa using hh
  | cons p rest ih =>
      intro h hh
      simp only [List.foldl_cons]
      exact ih _ (hashC_step_lt _ _ _ _)

lemma hashFoldC_go_inj (l : List (Nat × Nat × Nat)) :
    ∀ h1 h2 : Nat, h1 < 2 ^ 32 → h2 < 2 ^ 32 →
      List.foldl (fun h p => hashC_step h p.1 p.2.1 p.2.2) h1 l =
        List.foldl (fun h p => hashC_step h p.1 p.2.1 p.2.2) h2 l → h1 = h2 := by
  induction l with
  | nil => intro h1 h2 _ _ h; simpa using h
  | cons p rest ih =>
      intro h1 h2 lt1 lt2 heq
      simp only [List.foldl_cons] at heq
      exact hashC_state_inj lt1 lt2 _ _ _
        (ih _ _ (hashC_step_lt _ _ _ _) (hashC_step_lt _ _ _ _) heq)

/-- Two valid pixels that differ produce different `hashC_step` outputs
from the same state. -/
lemma hashC_point_inj {H : Nat} {p q : Nat × Nat × Nat}
    (hp : validPix p) (hq : validPix q) (hne : p ≠ q) :
    hashC_step H p.1 p.2.1 p.2.2 ≠ hashC_step H q.1 q.2.1 q.2.2 := by
  intro heq
  obtain ⟨hp1, hp2, hp3⟩ := hp
  obtain ⟨hq1, hq2, hq3⟩ := hq
  unfold hashC_step at heq
  simp only [Nat.shiftLeft_eq] at heq
  rw [show (2 : Nat) ^ 8 = 256 from by norm_num,
      show (2 : Nat) ^ 16 = 65536 from by norm_num,
      show H * 131 + p.1 + p.2.1 * 256 + p.2.2 * 65536 =
        H * 131 + (p.1 + p.2.1 * 256 + p.2.2 * 65536) from by ring,
      show H * 131 + q.1 + q.2.1 * 256 + q.2.2 * 65536 =
        H * 131 + (q.1 + q.2.1 * 256 + q.2.2 * 65536) from by ring] at heq
  have hme : H * 131 + (p.1 + p.2.1 * 256 + p.2.2 * 65536) ≡
      H * 131 + (q.1 + q.2.1 * 256 + q.2.2 * 65536) [MOD 2 ^ 32] := heq
  have m1 : (p.1 + p.2.1 * 256 + p.2.2 * 65536) % 2 ^ 32 =
      (q.1 + q.2.1 * 256 + q.2.2 * 65536) % 2 ^ 32 :=
    Nat.ModEq.add_left_cancel' _ hme
  rw [show (2 : Nat) ^ 32 = 4294967296 from by norm_num,
      Nat.mod_eq_of_lt (by omega), Nat.mod_eq_of_lt (by omega)] at m1
  have hcomp : p.1 = q.1 ∧ p.2.1 = q.2.1 ∧ p.2.2 = q.2.2 := by omega
  exact hne (Prod.ext hcomp.1 (Prod.ext hcomp.2.1 hcomp.2.2))

/-- C4: both change-detection hashes, folded over a sequence of sampled
(r,g,b) pixels, are deterministic functions of the sequence, and two
equal-length pixel sequences that differ in exactly one position's
(r,g,b) value (all channels being bytes) always get different hashes —
for the xorshift fold of `mister_peeper.cpp`/`mister_color_watch.cpp` and
for the multiplicative fold of `mister_peeper.c` alike. -/
theorem hash_fold_change_detection :
    (∀ l1 l2 : List (Nat × Nat × Nat), l1 = l2 →
      hashFold l1 = hashFold l2 ∧ hashFoldC l1 = hashFoldC l2) ∧
    (∀ pre suf : List (Nat × Nat × Nat), ∀ p q : Nat × Nat × Nat,
      (∀ x ∈ pre, validPix x) → (∀ x ∈ suf, validPix x) →
      validPix p → validPix q → p ≠ q →
      hashFold (pre ++ p :: suf) ≠ hashFold (pre ++ q :: suf) ∧
      hashFoldC (pre ++ p :: suf) ≠ hashFoldC (pre ++ q :: suf)) := by
  constructor
  · intro l1 l2 h
    rw [h]
    exact ⟨rfl, rfl⟩
  · intro pre suf p q hpre hsuf hp hq hne
    constructor
    · intro heq
      unfold hashFold at heq
      rw [List.foldl_append, List.foldl_append] at heq
      simp only [List.foldl_cons] at heq
      have hHlt : List.foldl (fun h p => hash_rgb h p.1 p.2.1 p.2.2) 2166136261 pre
          < 2 ^ 32 := hashFold_go_lt pre 2166136261 (by norm_num) hpre
      have hstep := hashFold_go_inj suf _ _
        (hash_rgb_lt hHlt hp.1 hp.2.1 hp.2.2) (hash_rgb_lt hHlt hq.1 hq.2.1 hq.2.2)
        hsuf heq
      exact hash_rgb_point_inj hHlt hp hq hne hstep
    · intro heq
      unfold hashFoldC at heq
      rw [List.foldl_append, List.foldl_append] at heq
      simp only [List.foldl_cons] at heq
      have hstep := hashFoldC_go_inj suf _ _
        (hashC_step_lt _ _ _ _) (hashC_step_lt _ _ _ _) heq
      exact hashC_point_inj hp hq hne hstep

/-- C4 witness: a one-pixel sequence and its single-pixel mutation hash
differently under both hashes. -/
theorem hash_fold_change_detection_witness :
    hashFold [(0, 0, 0)] ≠ hashFold [(0, 0, 1)] ∧
    hashFoldC [(0, 0, 0)] ≠ hashFoldC [(0, 0, 1)] := by
  have h := hash_fold_change_detection.2 [] [] (0, 0, 0) (0, 0, 1)
    (by simp) (by simp) ⟨by norm_num, by norm_num, by norm_num⟩
    ⟨by norm_num, by norm_num, by norm_num⟩ (by decide)
  simpa using h

/-! ## 5-6-5 histogram with epoch trick

Source: `mister_peeper.cpp` lines 225-228 (`g_epoch = 1`, zeroed
`g_stamp`/`g_count` arrays), lines 353-360 (per-frame epoch advance with
wrap handling) and lines 373-375 (per-sample bin update; `g_count` is
`uint16_t`, so its increment wraps modulo 65536). -/
structure Hist where
  epoch : Nat
  stamp : Fin 65536 → Nat
  count : Fin 65536 → Nat

/-- Initial state: `static uint32_t g_epoch = 1;` and zero-initialized
static arrays. -/
def histInit : Hist := ⟨1, fun _ => 0, fun _ => 0⟩

/-- Source lines 354-359: `if(++g_epoch==0){ memset(g_stamp,0,...);
memset(g_count,0,...); ++g_epoch; }`. -/
def epochAdvance (s : Hist) : Hist :=
  let e := (s.epoch + 1) % 2 ^ 32
  if e = 0 then ⟨1, fun _ => 0, fun _ => 0⟩ else ⟨e, s.stamp, s.count⟩

/-- Source lines 374-375: `if(g_stamp[key]!=epoch){ g_stamp[key]=epoch;
g_count[key]=1; } else { uint16_t c = ++g_count[key]; ... }`. -/
def binUpdate (e : Nat) (sc : (Fin 65536 → Nat) × (Fin 65536 → Nat))
    (key : Fin 65536) : (Fin 65536 → Nat) × (Fin 65536 → Nat) :=
  if sc.1 key ≠ e then (Function.update sc.1 key e, Function.update sc.2 key 1)
  else (sc.1, Function.update sc.2 key ((sc.2 key + 1) % 65536))

/-- The 5-6-5 bin key of a sampled pixel, source line 373:
`((uint32_t)(r>>3)<<11) | ((uint32_t)(g>>2)<<5) | (uint32_t)(b>>3)`. -/
def keyOf (r g b : Nat) : Nat := (((r >>> 3) <<< 11) ||| ((g >>> 2) <<< 5)) ||| (b >>> 3)

/-- One polling iteration's histogram work: advance the epoch, then fold
the bin update over the frame's sampled keys. -/
def frameStep (s : Hist) (keys : List (Fin 65536)) : Hist :=
  let s' := epochAdvance s
  let sc := keys.foldl (binUpdate s'.epoch) (s'.stamp, s'.count)
  ⟨s'.epoch, sc.1, sc.2⟩

def runFrames (frames : List (List (Fin 65536))) : Hist :=
  frames.foldl frameStep histInit

/-- Invariant carried across polling iterations. -/
def HistInv (s : Hist) : Prop :=
  1 ≤ s.epoch ∧ s.epoch < 2 ^ 32 ∧ ∀ k, s.stamp k ≤ s.epoch

/-- Within one frame, the bin-update fold stamps exactly the touched keys
with the frame epoch and counts their occurrences modulo 2^16; `occ`
tracks how many occurrences each key had before the remaining `keys` are
folded in. -/
lemma binFold_spec (e : Nat) :
    ∀ (keys : List (Fin 65536)) (st cnt occ : Fin 65536 → Nat),
      (∀ j, st j = e ↔ 0 < occ j) →
      (∀ j, st j = e → cnt j = occ j % 65536) →
      ∀ k,
        ((keys.foldl (binUpdate e) (st, cnt)).1 k = e ↔ 0 < occ k + keys.count k) ∧
        ((keys.foldl (binUpdate e) (st, cnt)).1 k = e →
          (keys.foldl (binUpdate e) (st, cnt)).2 k = (occ k + keys.count k) % 65536) ∧
        ((keys.foldl (binUpdate e) (st, cnt)).1 k = e ∨
          (keys.foldl (binUpdate e) (st, cnt)).1 k = st k) := by
  intro keys
  induction keys with
  | nil =>
      intro st cnt occ H1 H2 k
      simp only [List.foldl_nil, List.count_nil, Nat.add_zero]
      exact ⟨H1 k, H2 k, by simp⟩
  | cons key0 rest ih =>
      intro st cnt occ H1 H2 k
      simp only [List.foldl_cons]
      by_cases h0 : st key0 = e
      · have hocc0 : 0 < occ key0 := (H1 key0).1 h0
        have hbin : binUpdate e (st, cnt) key0 =
            (st, Function.update cnt key0 ((cnt key0 + 1) % 65536)) := by
          simp [binUpdate, h0]
        rw [hbin]
        have H1' : ∀ j, st j = e ↔ 0 < Function.update occ key0 (occ key0 + 1) j := by
          intro j
          by_cases hj : j = key0
          · subst hj
            simp [Function.update_same, h0]
          · simp [Function.update_noteq hj, H1 j]
        have H2' : ∀ j, st j = e →
            Function.update cnt key0 ((cnt key0 + 1) % 65536) j =
              Function.update occ key0 (occ key0 + 1) j % 65536 := by
          intro j hj
          by_cases hjk : j = key0
          · subst hjk
            simp only [Function.update_same]
            rw [H2 _ h0]
            omega
          · simp only [Function.update_noteq hjk]
            exact H2 j hj
        obtain ⟨s1, s2, s3⟩ := ih st _ _ H1' H2' k
        refine ⟨?_, ?_, s3⟩
        · rw [s1]
          by_cases hk : k = key0
          · subst hk
            simp only [Function.update_same, List.count_cons_self]
            omega
          · rw [Function.update_noteq hk, List.count_cons_of_ne hk]
        · intro hst
          rw [s2 hst]
          by_cases hk : k = key0
          · subst hk
            simp only [Function.update_same, List.count_cons_self]
            congr 1
            omega
          · rw [Function.update_noteq hk, List.count_cons_of_ne hk]
      · have hocc0 : occ key0 = 0 := by
          by_contra hc
          exact h0 ((H1 key0).2 (Nat.pos_of_ne_zero hc))
        have hbin : binUpdate e (st, cnt) key0 =
            (Function.update st key0 e, Function.update cnt key0 1) := by
          simp [binUpdate, h0]
        rw [hbin]
        have H1' : ∀ j, Function.update st key0 e j = e ↔
            0 < Function.update occ key0 (occ key0 + 1) j := by
          intro j
          by_cases hj : j = key0
          · subst hj
            simp [Function.update_same]
          · simp [Function.update_noteq hj, H1 j]
        have H2' : ∀ j, Function.update st key0 e j = e →
            Function.update cnt key0 1 j =
              Function.update occ key0 (occ key0 + 1) j % 65536 := by
          intro j hj
          by_cases hjk : j = key0
          · subst hjk
            simp [Function.update_same, hocc0]
          · simp only [Function.update_noteq hjk] at hj ⊢
            exact H2 j hj
        obtain ⟨s1, s2, s3⟩ := ih _ _ _ H1' H2' k
        refine ⟨?_, ?_, ?_⟩
        · rw [s1]
          by_cases hk : k = key0
          · subst hk
            simp only [Function.update_same, List.count_cons_self]
            omega
          · rw [Function.update_noteq hk, List.count_cons_of_ne hk]
        · intro hst
          rw [s2 hst]
          by_cases hk : k = key0
          · subst hk
            simp only [Function.update_same, List.count_cons_self]
            congr 1
            omega
          · rw [Function.update_noteq hk, List.count_cons_of_ne hk]
        · rcases s3 with h | h
          · exact Or.inl h
          · by_cases hk : k = key0
            · subst hk
              rw [h, Function.update_same]
              exact Or.inl rfl
            · rw [h, Function.update_noteq hk]
              exact Or.inr rfl

/-- One frame of the histogram scheme: the invariant is preserved, the
frame's epoch stamps exactly the keys sampled in this frame, and a
stamped bin's count is the number of occurrences in this frame (modulo
the `uint16_t` width), with no leakage from earlier frames. -/
lemma frameStep_spec (s : Hist) (f : List (Fin 65536)) (h : HistInv s) :
    HistInv (frameStep s f) ∧
    (∀ k, ((frameStep s f).stamp k = (frameStep s f).epoch ↔ k ∈ f)) ∧
    (∀ k, k ∈ f → (frameStep s f).count k = f.count k % 65536) := by
  obtain ⟨h1, h2, h3⟩ := h
  by_cases hw : (s.epoch + 1) % 2 ^ 32 = 0
  · have hadv : epochAdvance s = ⟨1, fun _ => 0, fun _ => 0⟩ := by
      simp only [epochAdvance]
      rw [if_pos hw]
    have spec := binFold_spec 1 f (fun _ => 0) (fun _ => 0) (fun _ => 0)
      (fun j => by simp) (fun j hj => by simp at hj)
    constructor
    · refine ⟨?_, ?_, ?_⟩
      · simp [frameStep, hadv]
      · simp [frameStep, hadv]
      · intro k
        have h3' := (spec k).2.2
        simp only [frameStep, hadv] at *
        rcases h3' with hh | hh <;> rw [hh] <;> omega
    · constructor
      · intro k
        have := (spec k).1
        simp only [frameStep, hadv] at *
        rw [this]
        simp [List.count_pos_iff]
      · intro k hk
        have hc := (spec k).2.1
        have hs := (spec k).1
        simp only [frameStep, hadv] at *
        rw [hc (hs.mpr (by simpa [List.count_pos_iff] using hk))]
        simp
  · have he : (s.epoch + 1) % 2 ^ 32 = s.epoch + 1 := by
      rcases Nat.lt_or_ge (s.epoch + 1) (2 ^ 32) with hlt | hge
      · exact Nat.mod_eq_of_lt hlt
      · exfalso
        apply hw
        have hone : s.epoch + 1 = 2 ^ 32 := by omega
        rw [hone]
        simp
    have hadv : epochAdvance s = ⟨s.epoch + 1, s.stamp, s.count⟩ := by
      simp only [epochAdvance, he]
      rw [if_neg (by omega)]
    have spec := binFold_spec (s.epoch + 1) f s.stamp s.count (fun _ => 0)
      (fun j => by simp; have := h3 j; omega)
      (fun j hj => by have := h3 j; omega)
    constructor
    · refine ⟨?_, ?_, ?_⟩
      · simp [frameStep, hadv]
      · simp only [frameStep, hadv]
        omega
      · intro k
        have h3' := (spec k).2.2
        have hsk := h3 k
        simp only [frameStep, hadv] at *
        rcases h3' with hh | hh <;> rw [hh] <;> omega
    · constructor
      · intro k
        have := (spec k).1
        simp only [frameStep, hadv] at *
        rw [this]
        simp [List.count_pos_iff]
      · intro k hk
        have hc := (spec k).2.1
        have hs := (spec k).1
        simp only [frameStep, hadv] at *
        rw [hc (hs.mpr (by simpa [List.count_pos_iff] using hk))]
        simp

lemma runFrames_inv (frames : List (List (Fin 65536))) : HistInv (runFrames frames) := by
  have gen : ∀ (fs : List (List (Fin 65536))) (s : Hist),
      HistInv s → HistInv (List.foldl frameStep s fs) := by
    intro fs
    induction fs with
    | nil => intro s hs; simpa using hs
    | cons f rest ih =>
        intro s hs
        simp only [List.foldl_cons]
        exact ih _ (frameStep_spec s f hs).1
  exact gen frames histInit ⟨le_refl 1, by norm_num [histInit], fun k => Nat.zero_le _⟩

/-- C9: in the histogram epoch scheme of `mister_peeper.cpp` the per-frame
epoch stamped into the bins is never 0 (the wrap branch clears both
arrays and skips epoch 0), and in every iteration a bin's stamp equals
the current frame's epoch exactly when the bin was hit in that frame —
in which case its count is that frame's hit count (modulo the `uint16_t`
width), untouched by earlier frames. -/
theorem histogram_epoch_never_zero (frames : List (List (Fin 65536)))
    (f : List (Fin 65536)) :
    (runFrames (frames ++ [f])).epoch ≠ 0 ∧
    (∀ k, ((runFrames (frames ++ [f])).stamp k =
      (runFrames (frames ++ [f])).epoch ↔ k ∈ f)) ∧
    (∀ k, k ∈ f →
      (runFrames (frames ++ [f])).count k = f.count k % 65536) := by
  have hrw : runFrames (frames ++ [f]) = frameStep (runFrames frames) f := by
    simp [runFrames, List.foldl_append]
  obtain ⟨hi, hst, hcnt⟩ := frameStep_spec (runFrames frames) f (runFrames_inv frames)
  rw [hrw]
  exact ⟨by have := hi.1; omega, hst, hcnt⟩

/-- C9 witness: after one frame that samples only bin 5, the epoch is
nonzero, bin 5 carries the current epoch, and its count is 1. -/
theorem histogram_epoch_never_zero_witness :
    (runFrames ([] ++ [[(5 : Fin 65536)]])).epoch ≠ 0 ∧
    (runFrames ([] ++ [[(5 : Fin 65536)]])).stamp 5 =
      (runFrames ([] ++ [[(5 : Fin 65536)]])).epoch ∧
    (runFrames ([] ++ [[(5 : Fin 65536)]])).count 5 = 1 := by
  have h := histogram_epoch_never_zero [] [(5 : Fin 65536)]
  refine ⟨h.1, (h.2.1 5).mpr (by simp), ?_⟩
  have := h.2.2 5 (by simp)
  simpa using this

/-! ## Argument parsing

Source: `mister_color_watch.cpp` lines 88-97 (`Opts` defaults
`step=16; sleep_us=2500;` and `parse_args`). -/

/-- Accumulate a decimal digit run, as `atoi` does. -/
def atoiDigits (acc : Nat) : List Char → Nat
  | [] => acc
  | c :: cs => if c.isDigit then atoiDigits (acc * 10 + (c.toNat - 48)) cs else acc

/-- Model of C `atoi`: skip leading whitespace, then an optional sign and
a digit run.  (Overflow is undefined behavior in C and not modelled; the
claims do not depend on it.) -/
def atoi (s : String) : Int :=
  let cs := s.toList.dropWhile fun c => c = ' ' ∨ c = '\t' ∨ c = '\n' ∨ c = '\r'
  match cs with
  | '-' :: rest => -(atoiDigits 0 rest : Int)
  | '+' :: rest => (atoiDigits 0 rest : Int)
  | _ => (atoiDigits 0 cs : Int)

/-- Source lines 90-96: each loop step matches `--step`/`--sleep-us`
followed by a value (clamping `step` below 1 to 1 and `sleep_us` below 0
to 0) and anything else — including a trailing flag without a value —
prints "Unknown option" and returns false (modelled as `none`). -/
def parse_args : List String → Int → Int → Option (Int × Int)
  | [], step, sleep_us => some (step, sleep_us)
  | [_], _, _ => none
  | a :: v :: rest, step, sleep_us =>
    if a = "--step" then
      parse_args rest (if atoi v < 1 then 1 else atoi v) sleep_us
    else if a = "--sleep-us" then
      parse_args rest step (if atoi v < 0 then 0 else atoi v)
    else none

/-- Modelled on the claim's wording: the argument vector is a sequence of
recognized flag/value pairs. -/
def recognizedPairs : List String → Bool
  | [] => true
  | [_] => false
  | a :: _ :: rest => (a == "--step" || a == "--sleep-us") && recognizedPairs rest

/-- C10: whenever `parse_args` succeeds (from the defaults, or any start
satisfying the same bounds) the resulting options satisfy `step ≥ 1` and
`sleep_us ≥ 0`, and it fails exactly when the argument vector is not a
sequence of recognized flag/value pairs. -/
theorem parse_args_clamps_and_rejects :
    ∀ (args : List String) (step0 sleep0 : Int), 1 ≤ step0 → 0 ≤ sleep0 →
      (∀ st sl, parse_args args step0 sleep0 = some (st, sl) →
        1 ≤ st ∧ 0 ≤ sl) ∧
      ((parse_args args step0 sleep0).isSome ↔ recognizedPairs args = true) := by
  have main : ∀ n (args : List String), args.length ≤ n →
      ∀ step0 sleep0 : Int, 1 ≤ step0 → 0 ≤ sleep0 →
      (∀ st sl, parse_args args step0 sleep0 = some (st, sl) →
        1 ≤ st ∧ 0 ≤ sl) ∧
      ((parse_args args step0 sleep0).isSome ↔ recognizedPairs args = true) := by
    intro n
    induction n with
    | zero =>
        intro args hlen step0 sleep0 h1 h2
        have : args = [] := List.length_eq_zero.mp (Nat.le_zero.mp hlen)
        subst this
        refine ⟨fun st sl hp => ?_, by simp [parse_args, recognizedPairs]⟩
        simp only [parse_args, Option.some.injEq, Prod.mk.injEq] at hp
        omega
    | succ n ih =>
        intro args hlen step0 sleep0 h1 h2
        match args with
        | [] =>
            refine ⟨fun st sl hp => ?_, by simp [parse_args, recognizedPairs]⟩
            simp only [parse_args, Option.some.injEq, Prod.mk.injEq] at hp
            omega
        | [a] =>
            refine ⟨fun st sl hp => ?_, by simp [parse_args, recognizedPairs]⟩
            simp [parse_args] at hp
        | a :: v :: rest =>
            have hlen' : rest.length ≤ n := by
              simp only [List.length_cons] at hlen
              omega
            by_cases ha : a = "--step"
            · have hc : (1 : Int) ≤ if atoi v < 1 then 1 else atoi v := by
                split <;> omega
              have hrec := ih rest hlen' _ sleep0 hc h2
              have hred : parse_args (a :: v :: rest) step0 sleep0 =
                  parse_args rest (if atoi v < 1 then 1 else atoi v) sleep0 := by
                simp [parse_args, ha]
              rw [hred]
              refine ⟨hrec.1, ?_⟩
              rw [hrec.2]
              simp [recognizedPairs, ha]
            · by_cases hb : a = "--sleep-us"
              · have hc : (0 : Int) ≤ if atoi v < 0 then 0 else atoi v := by
                  split <;> omega
                have hrec := ih rest hlen' step0 _ h1 hc
                have hred : parse_args (a :: v :: rest) step0 sleep0 =
                    parse_args rest step0 (if atoi v < 0 then 0 else atoi v) := by
                  simp [parse_args, ha, hb]
                rw [hred]
                refine ⟨hrec.1, ?_⟩
                rw [hrec.2]
                simp [recognizedPairs, hb]
              · have hred : parse_args (a :: v :: rest) step0 sleep0 = none := by
                  simp [parse_args, ha, hb]
                rw [hred]
                refine ⟨fun st sl hp => by simp at hp, ?_⟩
                simp [recognizedPairs, ha, hb]
  intro args
  exact main args.length args (le_refl _)

/-- C10 witness: `--step -5` parses (clamped to 1 from the defaults) and
satisfies the bounds; the success/failure characterization holds for it. -/
theorem parse_args_clamps_and_rejects_witness :
    ((1 : Int) ≤ 1 ∧ (0 : Int) ≤ 2500) ∧
    ((parse_args ["--step", "-5"] 16 2500).isSome ↔
      recognizedPairs ["--step", "-5"] = true) := by
  have h := parse_args_clamps_and_rejects ["--step", "-5"] 16 2500
    (by norm_num) (by norm_num)
  exact ⟨h.1 1 2500 (by decide), h.2⟩
